import Mathlib

/-!
Verification development for `src/web_crawler.py`.

The crawler keeps four shared globals (lines 17-20): `g_urls_to_be_processed`
(the pending FIFO queue, a Python list), `g_urls_already_processed` (the
visited list), `g_num_threads_processing` (an unbounded Python integer) and
`g_all_done` (a boolean). Worker threads run `get_and_process_url`
(lines 61-126); link extraction is `get_links_from_page_text` (lines 28-58).
-/

set_option autoImplicit false

namespace WebCrawler

/-- The shared frontier state: `g_urls_to_be_processed`,
`g_urls_already_processed`, `g_num_threads_processing` and `g_all_done`
(web_crawler.py lines 17-20). The thread count is an `Int` because Python
integers never wrap and the code only ever adds or subtracts one, so it can
in principle go negative. -/
structure Frontier where
  pending : List String
  visited : List String
  num : Int
  allDone : Bool
deriving DecidableEq

/-- Result of one pass through the guarded branch of `get_and_process_url`
(lines 77-92): either a URL was dequeued (with the frontier after the pop,
the visited-append and the `g_num_threads_processing += 1` of line 81), or
the worker returns (with the updated frontier and whether `notify_all` was
called on the way out), or the worker must wait on the condition variable. -/
inductive ClaimRes where
  | dequeue (u : String) (st : Frontier)
  | terminate (st : Frontier) (wake : Bool)
  | wait
deriving DecidableEq

/-- One evaluation of the branch at lines 77-92 of `get_and_process_url`,
together with the increment at line 81 that follows a successful dequeue:
pop the first pending URL and append it to visited (lines 78-79), else if
`g_all_done` return (line 85), else if no thread is processing set
`g_all_done`, wake everyone and return (lines 87-90), else wait (line 92). -/
def claimStep (st : Frontier) : ClaimRes :=
  match st.pending with
  | u :: rest =>
      .dequeue u { pending := rest, visited := st.visited ++ [u],
                   num := st.num + 1, allDone := st.allDone }
  | [] =>
      if st.allDone then .terminate st false
      else if st.num = 0 then
        .terminate { st with allDone := true } true
      else .wait

/-- The `claim` operation as the spec (§4.1) words it, for comparison with
`claimStep`: if `pending` is non-empty, remove and return its first element,
insert it into `visited` and increment `active_count`; if `pending` is empty
and `done` already holds, terminate at once without waking anyone; if
`pending` is empty, `done` is false and `active_count` is zero, set `done`,
wake every blocked worker and terminate; otherwise block. -/
def claimSpec (st : Frontier) : ClaimRes :=
  match st.pending with
  | u :: rest =>
      .dequeue u { pending := rest, visited := st.visited ++ [u],
                   num := st.num + 1, allDone := st.allDone }
  | [] =>
      if st.allDone then .terminate st false
      else if st.num = 0 then
        .terminate { st with allDone := true } true
      else .wait

/-- The dedup-insert loop of lines 103-105: each extracted link is appended
to `pending` exactly when it occurs in neither `g_urls_already_processed`
nor the current (growing) `g_urls_to_be_processed`. -/
def insertLinks (visited : List String) : List String → List String → List String
  | pending, [] => pending
  | pending, l :: ls =>
      if l ∉ visited ∧ l ∉ pending then insertLinks visited (pending ++ [l]) ls
      else insertLinks visited pending ls

/-- The publish critical section, lines 102-111: insert the page's links,
test `len(g_urls_to_be_processed) > 0` and call `notify_all` when it holds
(lines 107-108), and decrement `g_num_threads_processing` (line 110).
Returns the new frontier and whether `notify_all` ran. -/
def publishStep (st : Frontier) (links : List String) : Frontier × Bool :=
  let pending := insertLinks st.visited st.pending links
  ({ st with pending := pending, num := st.num - 1 }, !pending.isEmpty)

/-- The exception handler of lines 124-126: it only decrements
`g_num_threads_processing`; pending and visited are untouched and nothing
is printed. -/
def failStep (st : Frontier) : Frontier :=
  { st with num := st.num - 1 }

/-- C1: for every frontier state the crawler's claim branch acts by exactly
the spec's four cases, in the spec's order: FIFO dequeue with
visited-insertion and `active_count` increment when `pending` is non-empty;
immediate terminate without waking when `pending` is empty and `done` holds;
set `done`, wake all and terminate when `pending` is empty, `done` is false
and `active_count` is zero; wait otherwise. -/
theorem claim_matches_spec_cases : ∀ st : Frontier, claimStep st = claimSpec st := by
  intro st
  obtain ⟨p, v, n, d⟩ := st
  cases p <;> rfl

/-- C9 counterexample: in the state reached (with one worker, graph
`A ↦ [B, C]`, `B ↦ []`) after `A` is claimed and published and `B` is
claimed, `pending = ["C"]` is already non-empty; publishing `B`'s empty link
list inserts nothing, yet the test at line 107 still finds the queue
non-empty and fires `notify_all` — the claim says such a publish sends no
wake signal. -/
theorem publish_notifies_without_transition :
    publishStep ⟨["C"], ["A", "B"], 1, false⟩ [] =
      (⟨["C"], ["A", "B"], 0, false⟩, true) := by decide

/-- C9 amended: a publish wakes all blocked workers exactly when `pending`
is non-empty after its insertions — also when `pending` was already
non-empty beforehand or when nothing was inserted; the only other wake is
the `notify_all` issued when a claim decides termination. -/
theorem publish_notify_iff_pending_nonempty :
    ∀ (st : Frontier) (links : List String),
      (publishStep st links).2 = true ↔ (publishStep st links).1.pending ≠ [] := by
  intro st links
  cases h : insertLinks st.visited st.pending links <;>
    simp [publishStep, h]

/-- The per-anchor filter of `get_links_from_page_text` (lines 45-57),
applied to one `href` attribute (`none` when the anchor carries no `href`).
`pathless` is `parsed_url.scheme + "://" + parsed_url.netloc` from line 42.
Python's `path_or_url[0]` is the first character (`List.head?` of the
character list) and `path_or_url[0:3]` is the list of the first at most
three characters (`List.take 3`). -/
def processHref (pathless : String) (href : Option String) : Option String :=
  match href with
  | none => none
  | some s =>
      if s.data = [] then none
      else if s.data.head? = some '/' then some (pathless ++ s)
      else if s.data.take 3 = "http".data then some s
      else none

/-- `get_links_from_page_text` (lines 28-58), with BeautifulSoup's anchor
scan abstracted away: its input is the list of the `href` attributes of the
page's `a` tags, in document order, and it keeps the processed hrefs in
that order. -/
def getLinksFromPageText (scheme netloc : String) (hrefs : List (Option String)) :
    List String :=
  hrefs.filterMap (processHref (scheme ++ "://" ++ netloc))

/-- C6: false on the code. Line 52 compares the three-character slice
`path_or_url[0:3]` with the four-character string `"http"`, which can never
match, so the branch the source itself labels `# Absolute links` is dead and
every absolute `http`/`https` href is dropped instead of passed through.
Missing/empty hrefs, other relative forms and root-relative resolution
behave as claimed, as the same evaluation shows. -/
theorem absolute_links_dropped :
    getLinksFromPageText "http" "a.com"
        [some "http://b.com/page", some "https://c.com/x", none, some "",
         some "../x", some "mailto:z", some "/p"] =
      ["http://a.com/p"] := by decide

/-- C10: every href whose first character is `'/'` — including a
protocol-relative `"//host/path"` — gets the page's `scheme://netloc`
prepended to the whole href, rather than being treated as an absolute link
to the other host. -/
theorem root_relative_prepends_host :
    ∀ (scheme netloc s : String), s.data ≠ [] → s.data.head? = some '/' →
      getLinksFromPageText scheme netloc [some s] =
        [(scheme ++ "://" ++ netloc) ++ s] := by
  intro scheme netloc s h1 h2
  simp [getLinksFromPageText, processHref, h1, h2]

/-- Witness for C10 at the protocol-relative href `"//evil.com/p"` on page
host `http://a.com`: the extracted link is
`http://a.com//evil.com/p`. -/
theorem root_relative_prepends_host_witness :
    getLinksFromPageText "http" "a.com" [some "//evil.com/p"] =
      [("http" ++ "://" ++ "a.com") ++ "//evil.com/p"] :=
  root_relative_prepends_host "http" "a.com" "//evil.com/p" (by decide) (by decide)

/-- The print block of lines 113-117: the page URL on one line, then one
line per extracted link indented by two spaces (line 116's
`"  {}".format(link)`). -/
def pageBlock (u : String) (links : List String) : List String :=
  u :: links.map (fun l => "  " ++ l)

/-- One iteration of the worker loop (lines 73-126), driven by an abstract
fetch-and-extract capability: `f u = some links` models a successful fetch,
decode and link extraction of `u`, and `f u = none` models any exception
caught at line 118. Returns the frontier afterwards, the lines printed, and
whether the worker loops back to claim again (`false` exactly when the
claim branch returned at line 85 or 90). A `wait` is represented as an
iteration with no effect, since the worker re-evaluates the branch. -/
def workerIter (f : String → Option (List String)) (st : Frontier) :
    Frontier × List String × Bool :=
  match claimStep st with
  | .dequeue u st' =>
      match f u with
      | some links => ((publishStep st' links).1, pageBlock u links, true)
      | none => (failStep st', [], true)
  | .terminate st' _ => (st', [], false)
  | .wait => (st, [], true)

/-- C5: when the claimed URL's fetch/decode/extraction fails, the worker
keeps that URL in `visited` (it is neither retried nor re-enqueued), still
decrements the thread count back to its pre-claim value, prints nothing,
and loops back to claim the next URL. -/
theorem failure_isolated :
    ∀ (f : String → Option (List String)) (st : Frontier) (u : String)
      (rest : List String), st.pending = u :: rest → f u = none →
      workerIter f st =
        ({ pending := rest, visited := st.visited ++ [u], num := st.num,
           allDone := st.allDone }, [], true) ∧
      u ∈ (workerIter f st).1.visited := by
  intro f st u rest hp hf
  obtain ⟨p, v, n, d⟩ := st
  have hp' : p = u :: rest := hp
  subst hp'
  refine ⟨?_, ?_⟩ <;>
    simp [workerIter, claimStep, failStep, hf, Int.add_sub_cancel]

/-- Witness for C5: a failing fetch of the seeded URL `"A"` leaves `"A"`
visited, restores the count to zero, prints nothing, and the worker
continues. -/
theorem failure_isolated_witness :
    workerIter (fun _ => none) ⟨["A"], [], 0, false⟩ =
        ({ pending := [], visited := ["A"], num := 0, allDone := false }, [], true) ∧
      "A" ∈ (workerIter (fun _ => none) ⟨["A"], [], 0, false⟩).1.visited :=
  failure_isolated (fun _ => none) ⟨["A"], [], 0, false⟩ "A" [] rfl rfl

/-- The whole single-worker loop of `get_and_process_url`, fuel-bounded:
returns every printed line in order, the number of successful claims
(dequeues at line 78), and the final frontier. -/
def runWorker (f : String → Option (List String)) : Nat → Frontier → List String × Nat × Frontier
  | 0, st => ([], 0, st)
  | fuel + 1, st =>
      match claimStep st with
      | .dequeue u st' =>
          match f u with
          | some links =>
              let r := runWorker f fuel (publishStep st' links).1
              (pageBlock u links ++ r.1, r.2.1 + 1, r.2.2)
          | none =>
              let r := runWorker f fuel (failStep st')
              (r.1, r.2.1 + 1, r.2.2)
      | .terminate st' _ => ([], 0, st')
      | .wait => ([], 0, st)

/-- The §8 linear-chain scenario: page `A` links to `B`; `B` links to `A`
and `C`; `C` links to nothing; no other page exists. -/
def chainGraph : String → Option (List String)
  | "A" => some ["B"]
  | "B" => some ["A", "C"]
  | "C" => some []
  | _ => none

/-- C8: with one worker on the chain graph seeded with `A`, the run prints
the `A` block listing `B`, then the `B` block listing `A` and `C` (`A`
reported although already visited), then the `C` block with no links — each
block the page URL line followed by its two-space-indented link lines —
makes exactly 3 successful claims, and terminates with `done` set. -/
theorem chain_scenario :
    runWorker chainGraph 10 ⟨["A"], [], 0, false⟩ =
      (["A", "  B", "B", "  A", "  C", "C"], 3,
       ⟨[], ["A", "B", "C"], 0, true⟩) := by decide

/-- A run state: the frontier plus the history (in order) of URLs dequeued
at line 78 by any worker. -/
structure Run where
  fr : Frontier
  claimed : List String
deriving DecidableEq

/-- One observable transition of a run, each a single lock-held critical
section of `get_and_process_url`: a successful dequeue (lines 77-79), a
worker's publish of some extracted links (lines 102-111, with an arbitrary
link list, over-approximating every parser output), a worker's failure path
(lines 124-126), or a terminating pass through the claim branch
(lines 83-90). -/
inductive RunStep : Run → Run → Prop
  | claim {r : Run} {u : String} {st' : Frontier} :
      claimStep r.fr = .dequeue u st' → RunStep r ⟨st', r.claimed ++ [u]⟩
  | publish {r : Run} (links : List String) :
      RunStep r ⟨(publishStep r.fr links).1, r.claimed⟩
  | fail {r : Run} : RunStep r ⟨failStep r.fr, r.claimed⟩
  | finish {r : Run} {st' : Frontier} {w : Bool} :
      claimStep r.fr = .terminate st' w → RunStep r ⟨st', r.claimed⟩

/-- Run states reachable from the frontier seeded with the starting URL
(line 142), under any interleaving of the transitions. -/
inductive Reachable (start : String) : Run → Prop
  | init : Reachable start ⟨⟨[start], [], 0, false⟩, []⟩
  | step {r r' : Run} : Reachable start r → RunStep r r' → Reachable start r'

/-- Dequeue equation: with a non-empty queue the claim branch pops the
head, appends it to visited and increments the count. -/
theorem claimStep_cons (v : List String) (n : Int) (d : Bool) (u : String)
    (rest : List String) :
    claimStep ⟨u :: rest, v, n, d⟩ = .dequeue u ⟨rest, v ++ [u], n + 1, d⟩ := rfl

/-- Empty-queue equation of the claim branch. -/
theorem claimStep_nil (v : List String) (n : Int) (d : Bool) :
    claimStep ⟨[], v, n, d⟩ =
      (if d then .terminate ⟨[], v, n, d⟩ false
       else if n = 0 then .terminate ⟨[], v, n, true⟩ true
       else .wait) := rfl

/-- Unfolding equation for the publish critical section. -/
theorem publishStep_def (p v : List String) (n : Int) (d : Bool)
    (links : List String) :
    publishStep ⟨p, v, n, d⟩ links =
      (⟨insertLinks v p links, v, n - 1, d⟩,
        !(insertLinks v p links).isEmpty) := rfl

/-- Membership after the dedup-insert loop: a URL is pending afterwards iff
it was pending before, or it is one of the published links and not
visited. -/
theorem insertLinks_mem (visited : List String) (links : List String) :
    ∀ (pending : List String) (l : String),
      l ∈ insertLinks visited pending links ↔
        l ∈ pending ∨ (l ∈ links ∧ l ∉ visited) := by
  induction links with
  | nil => intro pending l; simp [insertLinks]
  | cons x ls ih =>
      intro pending l
      by_cases hx : x ∉ visited ∧ x ∉ pending
      · rw [insertLinks, if_pos hx, ih]
        simp only [List.mem_append, List.mem_cons, List.not_mem_nil, or_false]
        constructor
        · rintro ((h | rfl) | h)
          · exact Or.inl h
          · exact Or.inr ⟨Or.inl rfl, hx.1⟩
          · exact Or.inr ⟨Or.inr h.1, h.2⟩
        · rintro (h | ⟨rfl | h, hv⟩)
          · exact Or.inl (Or.inl h)
          · exact Or.inl (Or.inr rfl)
          · exact Or.inr ⟨h, hv⟩
      · rw [insertLinks, if_neg hx, ih]
        push_neg at hx
        simp only [List.mem_cons]
        constructor
        · rintro (h | h)
          · exact Or.inl h
          · exact Or.inr ⟨Or.inr h.1, h.2⟩
        · rintro (h | ⟨rfl | h, hv⟩)
          · exact Or.inl h
          · exact Or.inl (hx hv)
          · exact Or.inr ⟨h, hv⟩

/-- The dedup-insert loop keeps `pending` duplicate-free and disjoint from
`visited`. -/
theorem insertLinks_inv (visited : List String) (links : List String) :
    ∀ pending : List String, pending.Nodup → (∀ u ∈ pending, u ∉ visited) →
      (insertLinks visited pending links).Nodup ∧
        ∀ u ∈ insertLinks visited pending links, u ∉ visited := by
  induction links with
  | nil => intro pending h1 h2; exact ⟨h1, h2⟩
  | cons x ls ih =>
      intro pending h1 h2
      by_cases hx : x ∉ visited ∧ x ∉ pending
      · rw [insertLinks, if_pos hx]
        refine ih (pending ++ [x]) ?_ ?_
        · simp [List.nodup_append, h1, List.disjoint_singleton, hx.2]
        · intro u hu
          rcases List.mem_append.mp hu with h | h
          · exact h2 u h
          · rw [List.mem_singleton.mp h]; exact hx.1
      · rw [insertLinks, if_neg hx]
        exact ih pending h1 h2

/-- Every reachable run state satisfies the frontier invariant: `pending`
is duplicate-free, no pending URL is visited, `visited` records exactly the
dequeue history, and `visited` is duplicate-free. -/
theorem reachable_inv (start : String) (r : Run) (h : Reachable start r) :
    r.fr.pending.Nodup ∧ (∀ u ∈ r.fr.pending, u ∉ r.fr.visited) ∧
      r.fr.visited = r.claimed ∧ r.fr.visited.Nodup := by
  induction h with
  | init => simp
  | @step r r' _ hs ih =>
      obtain ⟨ih1, ih2, ih3, ih4⟩ := ih
      obtain ⟨⟨p, v, n, d⟩, cl⟩ := r
      cases hs with
      | @claim u st' h' =>
          cases p with
          | nil =>
              rw [claimStep_nil] at h'
              split_ifs at h'
          | cons u' rest =>
              rw [claimStep_cons] at h'
              obtain ⟨hu, hst⟩ := ClaimRes.dequeue.inj h'
              subst hu
              subst hst
              refine ⟨(List.nodup_cons.mp ih1).2, ?_, ?_, ?_⟩
              · intro x hx
                simp only [List.mem_append, List.mem_cons, List.not_mem_nil,
                  or_false]
                rintro (hv | rfl)
                · exact ih2 x (List.mem_cons_of_mem _ hx) hv
                · exact (List.nodup_cons.mp ih1).1 hx
              · have h3 : v = cl := ih3
                rw [h3]
              · simp only [List.nodup_append, List.nodup_singleton,
                  List.disjoint_singleton, true_and]
                exact ⟨ih4, ih2 u' (List.mem_cons_self u' rest)⟩
      | publish links =>
          rw [publishStep_def]
          exact ⟨(insertLinks_inv v links p ih1 ih2).1,
            (insertLinks_inv v links p ih1 ih2).2, ih3, ih4⟩
      | fail => exact ⟨ih1, ih2, ih3, ih4⟩
      | @finish st' w h' =>
          cases p with
          | cons u' rest => rw [claimStep_cons] at h'; simp at h'
          | nil =>
              rw [claimStep_nil] at h'
              split_ifs at h' <;>
                · obtain ⟨hst, -⟩ := ClaimRes.terminate.inj h'
                  subst hst
                  exact ⟨ih1, ih2, ih3, ih4⟩

/-- C2: a publish inserts a link into `pending` iff the link is absent from
both `pending` and `visited` at the moment it is examined (the membership
characterization of the dedup-insert loop), and consequently in every
reachable run state no URL is both pending and visited, and `pending` holds
no duplicates. -/
theorem publish_dedup_and_pending_invariant :
    (∀ (visited pending links : List String) (l : String),
        l ∈ insertLinks visited pending links ↔
          l ∈ pending ∨ (l ∈ links ∧ l ∉ visited)) ∧
    (∀ (start : String) (r : Run), Reachable start r →
        r.fr.pending.Nodup ∧ ∀ u ∈ r.fr.pending, u ∉ r.fr.visited) :=
  ⟨fun visited pending links l => insertLinks_mem visited links pending l,
   fun start r h => ⟨(reachable_inv start r h).1, (reachable_inv start r h).2.1⟩⟩

/-- Witness for C2: a doubly-listed link `"B"` is inserted (it is in the
published links and unvisited), and the state reached from seed `"A"` by a
claim followed by a publish of `["B", "B"]` has a duplicate-free pending
queue disjoint from visited. -/
theorem publish_dedup_and_pending_invariant_witness :
    ("B" ∈ insertLinks ["A"] [] ["B", "B"] ↔
        "B" ∈ ([] : List String) ∨ ("B" ∈ ["B", "B"] ∧ "B" ∉ ["A"])) ∧
    ((⟨⟨["B"], ["A"], 0, false⟩, ["A"]⟩ : Run).fr.pending.Nodup ∧
      ∀ u ∈ (⟨⟨["B"], ["A"], 0, false⟩, ["A"]⟩ : Run).fr.pending,
        u ∉ (⟨⟨["B"], ["A"], 0, false⟩, ["A"]⟩ : Run).fr.visited) :=
  ⟨publish_dedup_and_pending_invariant.1 ["A"] [] ["B", "B"] "B",
   publish_dedup_and_pending_invariant.2 "A" ⟨⟨["B"], ["A"], 0, false⟩, ["A"]⟩
     (Reachable.step (Reachable.step Reachable.init (RunStep.claim rfl))
       (RunStep.publish ["B", "B"]))⟩

/-- C4: in every reachable run state the history of URLs ever dequeued at
line 78 contains no URL twice — every URL is claimed, hence fetched, at
most once in the run's lifetime. -/
theorem no_duplicate_claims :
    ∀ (start : String) (r : Run), Reachable start r → r.claimed.Nodup := by
  intro start r h
  have hinv := reachable_inv start r h
  rw [← hinv.2.2.1]
  exact hinv.2.2.2

/-- Witness for C4: after the seeded claim of `"A"`, a publish of
`["A", "B"]` (the already-visited `"A"` is not re-enqueued) and a claim of
`"B"`, the claim history `["A", "B"]` is duplicate-free. -/
theorem no_duplicate_claims_witness : (["A", "B"] : List String).Nodup :=
  no_duplicate_claims "A" ⟨⟨[], ["A", "B"], 1, false⟩, ["A", "B"]⟩
    (Reachable.step
      (Reachable.step (Reachable.step Reachable.init (RunStep.claim rfl))
        (RunStep.publish ["A", "B"]))
      (RunStep.claim rfl))

/-- Program position of one worker thread, at the granularity at which the
lock serializes interleavings. Every region executed while holding
`g_url_condition` (lines 75-80, the terminate branches 83-90, and the
publish section 102-111) is a single atomic step. The
`g_num_threads_processing += 1` at line 81, however, runs after the
`release()` on line 80, i.e. outside the lock; a Python `+=` on a global is
several interpreter instructions between which other threads may run, so it
is modelled as a separate read step and write step. -/
inductive TPos where
  | start
  | incrRead (u : String)
  | incrWrite (u : String) (tmp : Int)
  | fetch (u : String)
  | waiting
  | finished
deriving DecidableEq

/-- A multi-threaded system state: the four shared globals plus each
thread's position. -/
structure MSys where
  pending : List String
  visited : List String
  num : Int
  allDone : Bool
  thr : List TPos
deriving DecidableEq

/-- Wake every thread blocked in `wait()` — the `notify_all` at line 88 or
line 108. -/
def wakeAll (ts : List TPos) : List TPos :=
  ts.map (fun t => if t = .waiting then .start else t)

/-- One interleaving step, thread `i` executing its next atomic unit, with
`f` the abstract fetch-and-extract capability. At `start` the thread
acquires the lock and runs the guarded branch: a dequeue (lines 77-80,
releasing at line 80 and leaving the increment of line 81 still to do), an
immediate return (line 85), the termination decision (lines 87-90), or a
wait (line 92). `incrRead`/`incrWrite` are the two unlocked halves of
line 81. At `fetch` the thread performs the fetch and the whole publish
critical section (lines 95-111), or the failure path (lines 124-126).
Waiting and finished threads do not move. -/
def mstep (f : String → Option (List String)) (s : MSys) (i : Nat) : MSys :=
  match s.thr.get? i with
  | none => s
  | some .start =>
      match s.pending with
      | u :: rest =>
          { s with pending := rest, visited := s.visited ++ [u],
                   thr := s.thr.set i (.incrRead u) }
      | [] =>
          if s.allDone then { s with thr := s.thr.set i .finished }
          else if s.num = 0 then
            { s with allDone := true, thr := (wakeAll s.thr).set i .finished }
          else { s with thr := s.thr.set i .waiting }
  | some (.incrRead u) => { s with thr := s.thr.set i (.incrWrite u s.num) }
  | some (.incrWrite u tmp) =>
      { s with num := tmp + 1, thr := s.thr.set i (.fetch u) }
  | some (.fetch u) =>
      match f u with
      | some links =>
          let pending := insertLinks s.visited s.pending links
          { s with pending := pending, num := s.num - 1,
                   thr := if pending.isEmpty then s.thr.set i .start
                          else (wakeAll s.thr).set i .start }
      | none => { s with num := s.num - 1, thr := s.thr.set i .start }
  | some .waiting => s
  | some .finished => s

/-- Run a concrete schedule: at each entry, the named thread takes one
step. -/
def execSchedule (f : String → Option (List String)) : MSys → List Nat → MSys
  | s, [] => s
  | s, i :: rest => execSchedule f (mstep f s i) rest

/-- C3: false on the code. The `g_num_threads_processing += 1` at line 81
executes after the `release()` at line 80, so the dequeue/visited-insertion
and the count increment are not one critical section. Concretely, with two
workers on the frontier seeded with `"A"`: worker 0 dequeues `"A"` and
releases the lock; before it reaches line 81, worker 1 acquires the lock,
sees an empty queue, `g_all_done` false and `g_num_threads_processing = 0`,
so it declares termination and exits while worker 0 is still mid-claim
holding `"A"` — impossible if the increment were inside the locked step. -/
theorem claim_increment_outside_lock :
    execSchedule chainGraph ⟨["A"], [], 0, false, [.start, .start]⟩ [0, 1] =
      ⟨[], ["A"], 0, true, [.incrRead "A", .finished]⟩ := by decide

/-- A page `A` that links to `B` and `C`, which link to nothing. -/
def forkGraph : String → Option (List String)
  | "A" => some ["B", "C"]
  | _ => some []

/-- C7: false on the code, for the same root cause. Because the two halves
of the unlocked `+= 1` at line 81 can interleave, an increment can be lost:
with two workers on the graph `A ↦ [B, C]`, `B ↦ []`, `C ↦ []`, the
schedule below has worker 0 process `A`, then both workers dequeue (`B` and
`C`) and both read `g_num_threads_processing = 0` before either writes, so
one increment is lost; after both publish, the counter reaches `-1` —
negative, and unequal to the number of in-flight workers (zero) — and both
workers then block forever in `wait()` (pending empty, `done` false, count
`≠ 0`): a deadlocked quiescent state. -/
theorem active_count_goes_negative :
    execSchedule forkGraph ⟨["A"], [], 0, false, [.start, .start]⟩
        [0, 0, 0, 0, 0, 1, 0, 1, 0, 1, 0, 1, 0, 1] =
      ⟨[], ["A", "B", "C"], -1, false, [.waiting, .waiting]⟩ := by decide

end WebCrawler
